import Mathlib

/-!
Verification of the WUOG-In-Philosophy-Checker chart scanner (src/main.py).

The development shallowly embeds the Python source:

* Python `str` values are Lean `String`s; the Python string primitives used by
  the code (`in`, `.lower()`, `.join`, `.split`) are modelled by `pyIn`,
  `pyLower`, `pyJoin` / `joinSep` and `split_roster` / `pySplit2` on the
  underlying character lists.
* Calendar dates are modelled as integer day numbers (`daysFromCivil` is the
  standard civil-calendar day count, so ISO date strings are in bijection with
  the `Int` values used here); `timedelta(weeks=1)` is `7`.
* The sqlite database is an explicit `DB` value with one association list per
  table; `INSERT` appends a row and `SELECT ... WHERE date = ?` is `find?`.
* The `billboard.ChartData` collaborator is a `Source` function; `none` models
  a raised exception (network failure / unresolvable date).
* Exceptions propagate as explicit `Outcome` values; every stateful operation
  returns the resulting database and a list of observable `Event`s (cache
  lookups, source fetches, inserts) so that temporal claims can be stated.
* The `while` loop of `find_in_table` is embedded with a fuel parameter; the
  wrapper passes enough fuel for the walk from the resolved start date to the
  horizon, and the proofs show the fuel bound is never the reason a scan stops.
-/

/-! ### Python string primitives -/

/-- Model of the Python substring test `needle in hay`. -/
def pyIn (needle hay : String) : Bool :=
  decide (needle.data <:+: hay.data)

/-- `occursAt pat s i` holds when `pat` occurs in `s` starting at index `i`. -/
def occursAt (pat s : String) (i : Nat) : Bool :=
  decide (pat.data <+: s.data.drop i)

/-- Model of Python `str.lower` (ASCII case folding, as artist names use). -/
def pyLower (s : String) : String :=
  ⟨s.data.map Char.toLower⟩

/-- Model of Python `sep.join(l)` at the character-list level. -/
def joinSep (sep : List Char) : List (List Char) → List Char
  | [] => []
  | [x] => x
  | x :: y :: tl => x ++ sep ++ joinSep sep (y :: tl)

/-- Model of Python `sep.join(l)` on strings. -/
def pyJoin (sep : String) (l : List String) : String :=
  ⟨joinSep sep.data (l.map String.data)⟩

/-- Model of Python `s.split(sep)` for a two-character separator `[a, b]`:
splits at each leftmost occurrence of the separator. -/
def pySplit2 (a b : Char) : List Char → List (List Char)
  | [] => [[]]
  | [c] => [[c]]
  | c :: d :: cs =>
    if c = a ∧ d = b then
      [] :: pySplit2 a b cs
    else
      match pySplit2 a b (d :: cs) with
      | [] => [[c]]
      | r :: rs => (c :: r) :: rs

/-- Whether the two-character sequence `[a, b]` occurs contiguously in a list. -/
def containsSeq2 (a b : Char) : List Char → Bool
  | [] => false
  | [_] => false
  | c :: d :: cs => if c = a ∧ d = b then true else containsSeq2 a b (d :: cs)

/-! ### Data model -/

/-- The result record returned on a hit (Python `FoundInfo`). -/
structure FoundInfo where
  date : Int
  artist : String
  position : Nat
deriving DecidableEq

/-- One entry of a fetched chart (only the `.artist` field is used). -/
structure ChartEntry where
  artist : String
deriving DecidableEq

/-- The value returned by the Chart Source (`billboard.ChartData`): the actual
published date and the ordered entries. -/
structure ChartData where
  date : Int
  entries : List ChartEntry
deriving DecidableEq

/-- The external Chart Source; `none` models a raised exception. -/
abbrev Source := String → Int → Option ChartData

/-- The persistent store: one `(date, artists)` table per chart. -/
structure DB where
  hot100 : List (Int × String)
  bb200 : List (Int × String)
deriving DecidableEq

/-- The rows of the named table (unknown table names denote no rows). -/
def DB.getTable (db : DB) (t : String) : List (Int × String) :=
  if t = "hot100" then db.hot100 else if t = "bb200" then db.bb200 else []

/-- `SELECT artists FROM t WHERE date = ?` followed by `fetchone()`. -/
def DB.lookup (db : DB) (t : String) (d : Int) : Option String :=
  ((db.getTable t).find? (fun p => p.1 == d)).map (·.2)

/-- `INSERT INTO t VALUES (?,?)` (row appended to the table). -/
def DB.insert (db : DB) (t : String) (d : Int) (a : String) : DB :=
  if t = "hot100" then { db with hot100 := db.hot100 ++ [(d, a)] }
  else if t = "bb200" then { db with bb200 := db.bb200 ++ [(d, a)] }
  else db

/-- Observable effects of a scan, in order of occurrence. -/
inductive Event where
  | sourceFetch (chart : String) (d : Int)
  | cacheLookup (table : String) (d : Int) (hit : Bool)
  | dbInsert (table : String) (d : Int) (artists : String)
deriving DecidableEq

/-- The result of a scan.  `sourceError` is an uncaught Chart Source
exception, `keyError` an uncaught `ValueError` from `key_from_value`,
`outOfFuel` exhaustion of the loop-embedding fuel (shown unreachable). -/
inductive Outcome where
  | found (fi : FoundInfo)
  | notFound
  | sourceError
  | keyError
  | outOfFuel
deriving DecidableEq

/-! ### Constants from the source -/

/-- Day number of the Gregorian date `y-m-d` (standard civil-from-days count;
day 0 is 0000-03-01).  This is the bijection between ISO date strings and the
integers used to model dates. -/
def daysFromCivil (y m d : Nat) : Int :=
  let yp := if m ≤ 2 then y - 1 else y
  let era := yp / 400
  let yoe := yp % 400
  let mp := (m + 9) % 12
  let doy := (153 * mp + 2) / 5 + (d - 1)
  let doe := yoe * 365 + yoe / 4 - yoe / 100 + doy
  (era : Int) * 146097 + (doe : Int)

/-- Abbreviation for date literals. -/
def mkDate (y m d : Nat) : Int := daysFromCivil y m d

/-- `ODD_DATES`: canonical chart dates that were actually published on another
day.  `1976-07-03` was published on `1976-07-04`. -/
def ODD_DATES : List (Int × Int) :=
  [(mkDate 1976 7 3, mkDate 1976 7 4)]

/-- `BILLBOARD_200_EARLIEST = date(1963, 8, 17)`. -/
def BILLBOARD_200_EARLIEST : Int := mkDate 1963 8 17

/-- `ARTIST_SEPARATOR`, chosen not to collide with artist names. -/
def ARTIST_SEPARATOR : String := "`~"

/-- First character of the separator (the backquote, code 96). -/
def sepChar1 : Char := Char.ofNat 96

/-- Second character of the separator (the tilde, code 126). -/
def sepChar2 : Char := Char.ofNat 126

/-! ### The embedded program -/

/-- `directly_follows(a, b, src)` from the source: `b+a in src`.  Note that it
tests occurrence of the concatenation anywhere in `src`. -/
def directly_follows (a b src : String) : Bool :=
  pyIn (b ++ a) src

/-- `key_from_value(d, val)`: the first key of `d` whose value is `val`;
`none` models the `ValueError` raised when `val` is not among the values. -/
def key_from_value (d : List (Int × Int)) (val : Int) : Option Int :=
  (d.find? (fun p => p.2 == val)).map (·.1)

/-- `chart_name_to_table_name` from the source. -/
def chart_name_to_table_name (chart_name : String) : String :=
  if chart_name = "hot-100" then "hot100"
  else if chart_name = "billboard-200" then "bb200"
  else ""

/-- The serialization of a roster performed by `fetch_and_insert_date`:
`ARTIST_SEPARATOR.join(names).lower()`. -/
def serialize_roster (names : List String) : String :=
  pyLower (pyJoin ARTIST_SEPARATOR names)

/-- The deserialization performed by `find_in_table`:
`res_str.split(ARTIST_SEPARATOR)`. -/
def split_roster (s : String) : List String :=
  (pySplit2 sepChar1 sepChar2 s.data).map fun l => ⟨l⟩

/-- `fetch_and_insert_date(datestr, chart_name, dbconn)`: fetch the chart from
the source, truncate (top 20 for the albums chart), serialize, and insert the
row keyed by `chart.date`.  Returns the artists string, the new database state
and the observable events; `none` models the propagated source exception. -/
def fetch_and_insert_date (source : Source) (datestr : Int) (chart_name : String)
    (db : DB) : Option String × DB × List Event :=
  let table_name := chart_name_to_table_name chart_name
  match source chart_name datestr with
  | none => (none, db, [.sourceFetch chart_name datestr])
  | some chart =>
    let entries := if chart_name = "hot-100" then chart.entries else chart.entries.take 20
    let artists_str := serialize_roster (entries.map (·.artist))
    (some artists_str, db.insert table_name chart.date artists_str,
      [.sourceFetch chart_name datestr, .dbInsert table_name chart.date artists_str])

/-- The cache interrogation of `find_in_table` (lines 97-105 of the source):
look the week up in the table; on a miss, call `fetch_and_insert_date`. -/
def get_or_fetch (chart_name : String) (source : Source) (d : Int) (db : DB) :
    Option String × DB × List Event :=
  let table_name := chart_name_to_table_name chart_name
  match db.lookup table_name d with
  | some s => (some s, db, [.cacheLookup table_name d true])
  | none =>
    let r := fetch_and_insert_date source d chart_name db
    (r.1, r.2.1, .cacheLookup table_name d false :: r.2.2)

/-- The position scan of `find_in_table` (lines 111-114): the first entry, in
order, whose text contains the query; `i` is the number of entries already
passed, and the reported position is 1-indexed. -/
def find_entry (artist : String) : List String → Nat → Option (String × Nat)
  | [], _ => none
  | a :: rest, i =>
    if pyIn artist a then some (a, i + 1) else find_entry artist rest (i + 1)

/-- The matching step of `find_in_table` (lines 107-114): the joined-string
substring test with the `" featuring "` exclusion, then the per-entry scan.
`none` means the outer loop continues with the next week. -/
def match_artist (artist res_str : String) : Option (String × Nat) :=
  if pyIn artist res_str && ! directly_follows artist " featuring " res_str then
    find_entry artist (split_roster res_str) 0
  else none

/-- The body of the `while curr_week > stop_date` loop of `find_in_table`,
with explicit fuel.  Each iteration: substitute the odd date if the canonical
week is a key of `ODD_DATES`, resolve the roster through the cache, match,
and on no hit revert to the canonical date and step back seven days. -/
def find_in_table_loop (artist chart_name : String) (source : Source)
    (stop_date : Int) : Nat → Int → DB → Outcome × DB × List Event
  | 0, _, db => (.outOfFuel, db, [])
  | fuel + 1, curr, db =>
    if curr > stop_date then
      let sub :=
        match ODD_DATES.find? (fun p => p.1 == curr) with
        | some p => (true, p.2)
        | none => (false, curr)
      let curr_is_odd := sub.1
      let curr2 := sub.2
      match get_or_fetch chart_name source curr2 db with
      | (none, db2, evs) => (.sourceError, db2, evs)
      | (some res_str, db2, evs) =>
        match match_artist artist res_str with
        | some (a, i) => (.found ⟨curr2, a, i⟩, db2, evs)
        | none =>
          let back :=
            if curr_is_odd then key_from_value ODD_DATES curr2 else some curr2
          match back with
          | none => (.keyError, db2, evs)
          | some c =>
            let r := find_in_table_loop artist chart_name source stop_date fuel (c - 7) db2
            (r.1, r.2.1, evs ++ r.2.2)
    else (.notFound, db, [])

/-- `find_in_table(artist, dbconn, start_date, stop_date, chart_name)`:
resolve the starting date through the Chart Source (line 86), then run the
backward weekly loop.  The fuel passed to the loop strictly dominates the
number of weeks between the resolved start and the horizon. -/
def find_in_table (artist : String) (db : DB) (source : Source)
    (start_date stop_date : Int) (chart_name : String) :
    Outcome × DB × List Event :=
  match source chart_name start_date with
  | none => (.sourceError, db, [.sourceFetch chart_name start_date])
  | some start_chart =>
    let curr := start_chart.date
    let fuel := ((curr - stop_date).toNat + 7) / 7 + 1
    let r := find_in_table_loop artist chart_name source stop_date fuel curr db
    (r.1, r.2.1, .sourceFetch chart_name start_date :: r.2.2)

/-- `find_in_bb200`: albums-chart scan down to `BILLBOARD_200_EARLIEST`. -/
def find_in_bb200 (artist : String) (start_date : Int) (db : DB)
    (source : Source) : Outcome × DB × List Event :=
  find_in_table artist db source start_date BILLBOARD_200_EARLIEST "billboard-200"

/-! ### Specification-side definitions -/

/-- The odd-date substitution applied to a candidate week before querying. -/
def substOdd (d : Int) : Int :=
  match ODD_DATES.find? (fun p => p.1 == d) with
  | some p => p.2
  | none => d

/-- Fuel-indexed helper for `canonicalDesc`; the fuel strictly dominates the
number of seven-day steps down to the horizon. -/
def canonicalDescAux (stop : Int) : Nat → Int → List Int
  | 0, _ => []
  | n + 1, curr => if curr ≤ stop then [] else curr :: canonicalDescAux stop n (curr - 7)

/-- The canonical candidate weeks of a scan: the resolved start date and every
seventh day before it, stopping strictly above the horizon. -/
def canonicalDesc (stop : Int) (curr : Int) : List Int :=
  canonicalDescAux stop ((curr - stop).toNat + 1) curr

/-- Checks that in a trace every source fetch is immediately preceded by a
cache miss for the same date. -/
def fetchesAfterMiss : List Event → Bool
  | [] => true
  | .sourceFetch _ _ :: _ => false
  | .cacheLookup _ d false :: .sourceFetch _ d2 :: rest => d2 == d && fetchesAfterMiss rest
  | .cacheLookup _ _ false :: rest => fetchesAfterMiss rest
  | _ :: rest => fetchesAfterMiss rest

/-! ### Helper lemmas: occurrences and substring tests -/

theorem infix_iff_exists_drop {α : Type} {l₁ l₂ : List α} :
    l₁ <:+: l₂ ↔ ∃ i, l₁ <+: l₂.drop i := by
  constructor
  · rintro ⟨s, t, rfl⟩
    refine ⟨s.length, t, ?_⟩
    rw [List.append_assoc, List.drop_left]
  · rintro ⟨i, t, ht⟩
    exact ⟨l₂.take i, t, by rw [List.append_assoc, ht, List.take_append_drop]⟩

theorem pyIn_iff {needle hay : String} :
    pyIn needle hay = true ↔ needle.data <:+: hay.data := by
  simp [pyIn]

theorem occursAt_iff {pat s : String} {i : Nat} :
    occursAt pat s i = true ↔ pat.data <+: s.data.drop i := by
  simp [occursAt]

theorem pyIn_iff_exists_occursAt {pat s : String} :
    pyIn pat s = true ↔ ∃ i, occursAt pat s i = true := by
  rw [pyIn_iff, infix_iff_exists_drop]
  constructor
  · rintro ⟨i, hi⟩
    exact ⟨i, occursAt_iff.mpr hi⟩
  · rintro ⟨i, hi⟩
    exact ⟨i, occursAt_iff.mp hi⟩

theorem occursAt_false_of_pyIn_false {pat s : String} (h : pyIn pat s = false) :
    ∀ j, occursAt pat s j = false := by
  intro j
  cases hc : occursAt pat s j with
  | false => rfl
  | true =>
    have : pyIn pat s = true := pyIn_iff_exists_occursAt.mpr ⟨j, hc⟩
    rw [h] at this
    exact absurd this (by simp)

/-! ### Helper lemmas: the per-entry position scan -/

theorem find_entry_eq (artist : String) :
    ∀ (l : List String) (n k : Nat) (hk : k < l.length),
      pyIn artist (l.get ⟨k, hk⟩) = true →
      (∀ j (hj : j < k), pyIn artist (l.get ⟨j, Nat.lt_trans hj hk⟩) = false) →
      find_entry artist l n = some (l.get ⟨k, hk⟩, n + k + 1) := by
  intro l
  induction l with
  | nil => intro n k hk; simp at hk
  | cons a rest ih =>
    intro n k hk hhit hprev
    cases k with
    | zero =>
      simp only [List.get] at hhit ⊢
      simp [find_entry, hhit]
    | succ k =>
      have h0 : pyIn artist a = false := hprev 0 (Nat.succ_pos k)
      simp only [List.get] at hhit ⊢
      have hk' : k < rest.length := Nat.lt_of_succ_lt_succ hk
      have hrec := ih (n + 1) k hk' hhit ?_
      · rw [find_entry, if_neg (by simp [h0]), hrec]
        have : n + 1 + k + 1 = n + (k + 1) + 1 := by omega
        rw [this]
      · intro j hj
        have := hprev (j + 1) (Nat.succ_lt_succ hj)
        simpa using this

/-! ### Claim C1 -/

/-- C1 counterexample: for the roster `["drake", "sia featuring drake"]`, the
query `"drake"` occurs at position 0 of the joined roster string (so it is not
immediately preceded by `" featuring "` there), yet `find` rejects the week
outright and returns no hit, because `" featuring drake"` occurs elsewhere in
the joined string.  This falsifies the claim that a match is rejected only
when the match position itself is preceded by `" featuring "`. -/
theorem C1_counterexample :
    occursAt "drake" "drake`~sia featuring drake" 0 = true ∧
    split_roster "drake`~sia featuring drake" = ["drake", "sia featuring drake"] ∧
    match_artist "drake" "drake`~sia featuring drake" = none := by
  refine ⟨by decide, by decide, by decide⟩

/-- C1 (amended): `find` rejects the week whenever `" featuring "` followed by
the query occurs anywhere in the joined roster string — even if the query also
occurs elsewhere at a position not so preceded; when no such occurrence exists
and the query occurs, `find` returns the first entry (1-indexed) whose text
contains the query. -/
theorem C1_theorem (artist res : String) (l : List String) (k : Nat)
    (hk : k < l.length) (hl : l = split_roster res) :
    ((∃ j, occursAt (" featuring " ++ artist) res j = true) →
        match_artist artist res = none)
    ∧ ((∃ i, occursAt artist res i = true) →
        (∀ j, occursAt (" featuring " ++ artist) res j = false) →
        pyIn artist (l.get ⟨k, hk⟩) = true →
        (∀ j (hj : j < k), pyIn artist (l.get ⟨j, Nat.lt_trans hj hk⟩) = false) →
        match_artist artist res = some (l.get ⟨k, hk⟩, k + 1)) := by
  constructor
  · rintro ⟨j, hj⟩
    have hdf : directly_follows artist " featuring " res = true :=
      pyIn_iff_exists_occursAt.mpr ⟨j, hj⟩
    simp [match_artist, hdf]
  · rintro ⟨i, hi⟩ hno hhit hprev
    have hin : pyIn artist res = true := pyIn_iff_exists_occursAt.mpr ⟨i, hi⟩
    have hdf : directly_follows artist " featuring " res = false := by
      cases hc : directly_follows artist " featuring " res with
      | false => rfl
      | true =>
        obtain ⟨j, hj⟩ := pyIn_iff_exists_occursAt.mp hc
        rw [hno j] at hj
        exact absurd hj (by simp)
    rw [match_artist, if_pos (by simp [hin, hdf]), ← hl]
    have := find_entry_eq artist l 0 k hk hhit hprev
    simpa using this

/-- C1 witness: for the roster `["sia", "drake"]` no `" featuring "` pattern
occurs, and the query `"drake"` is found at position 2. -/
theorem C1_witness :
    match_artist "drake" "sia`~drake" = some ("drake", 2) := by
  have h := C1_theorem "drake" "sia`~drake" ["sia", "drake"] 1 (by decide)
    (by decide)
  exact h.2 ⟨5, by decide⟩
    (occursAt_false_of_pyIn_false (by decide))
    (by decide)
    (fun j hj => by
      have hj0 : j = 0 := by omega
      subst hj0
      exact (by decide : pyIn "drake" "sia" = false))

/-! ### Helper lemmas: serialization round trip -/

theorem char_toNat_ofNat {n : Nat} (h : n < 55296) : (Char.ofNat n).toNat = n := by
  unfold Char.ofNat
  rw [dif_pos (Or.inl h)]
  rfl

/-- ASCII case folding cannot produce a separator character from a
non-separator character. -/
theorem toLower_eq_sep {c : Char} :
    (Char.toLower c = sepChar1 → c = sepChar1) ∧
    (Char.toLower c = sepChar2 → c = sepChar2) := by
  simp only [Char.toLower]
  by_cases h : c.toNat ≥ 65 ∧ c.toNat ≤ 90
  · rw [if_pos h]
    have hv : (Char.ofNat (c.toNat + 32)).toNat = c.toNat + 32 :=
      char_toNat_ofNat (by omega)
    have h96 : sepChar1.toNat = 96 := by decide
    have h126 : sepChar2.toNat = 126 := by decide
    constructor
    · intro he
      have := congrArg Char.toNat he
      rw [hv, h96] at this
      exfalso
      omega
    · intro he
      have := congrArg Char.toNat he
      rw [hv, h126] at this
      exfalso
      omega
  · rw [if_neg h]
    exact ⟨id, id⟩

theorem containsSeq2_iff_infix {a b : Char} :
    ∀ {l : List Char}, containsSeq2 a b l = true ↔ [a, b] <:+: l := by
  intro l
  induction l with
  | nil =>
    simp only [containsSeq2]
    constructor
    · intro h; exact absurd h (by simp)
    · intro h
      have := h.length_le
      simp at this
  | cons c tl ih =>
    cases tl with
    | nil =>
      simp only [containsSeq2]
      constructor
      · intro h; exact absurd h (by simp)
      · intro h
        have := h.length_le
        simp at this
    | cons d cs =>
      rw [containsSeq2, List.infix_cons_iff]
      constructor
      · intro h
        by_cases hcd : c = a ∧ d = b
        · left
          rw [List.cons_prefix_cons]
          refine ⟨hcd.1.symm, ?_⟩
          rw [List.cons_prefix_cons]
          exact ⟨hcd.2.symm, List.nil_prefix⟩
        · right
          rw [if_neg hcd] at h
          exact ih.mp h
      · intro h
        rcases h with h | h
        · rw [List.cons_prefix_cons] at h
          obtain ⟨hac, h2⟩ := h
          rw [List.cons_prefix_cons] at h2
          rw [if_pos ⟨hac.symm, h2.1.symm⟩]
        · by_cases hcd : c = a ∧ d = b
          · rw [if_pos hcd]
          · rw [if_neg hcd]
            exact ih.mpr h

theorem containsSeq2_map_toLower :
    ∀ {l : List Char},
      containsSeq2 sepChar1 sepChar2 (l.map Char.toLower) = true →
      containsSeq2 sepChar1 sepChar2 l = true := by
  intro l
  induction l with
  | nil => intro h; exact absurd h (by simp [containsSeq2])
  | cons c tl ih =>
    cases tl with
    | nil => intro h; exact absurd h (by simp [containsSeq2])
    | cons d cs =>
      intro h
      rw [List.map_cons, List.map_cons, containsSeq2] at h
      rw [containsSeq2]
      by_cases hcd : Char.toLower c = sepChar1 ∧ Char.toLower d = sepChar2
      · rw [if_pos ⟨toLower_eq_sep.1 hcd.1, toLower_eq_sep.2 hcd.2⟩]
      · rw [if_neg hcd] at h
        by_cases h2 : c = sepChar1 ∧ d = sepChar2
        · rw [if_pos h2]
        · rw [if_neg h2]
          exact ih (by rw [List.map_cons]; exact h)

theorem pySplit2_cons2 (a b c d : Char) (cs : List Char) :
    pySplit2 a b (c :: d :: cs) =
      if c = a ∧ d = b then [] :: pySplit2 a b cs
      else
        match pySplit2 a b (d :: cs) with
        | [] => [[c]]
        | r :: rs => (c :: r) :: rs := rfl

theorem pySplit2_no_sep {a b : Char} :
    ∀ {e : List Char}, containsSeq2 a b e = false → pySplit2 a b e = [e] := by
  intro e
  induction e with
  | nil => intro _; rfl
  | cons c tl ih =>
    cases tl with
    | nil => intro _; rfl
    | cons d cs =>
      intro h
      rw [containsSeq2] at h
      have hcd : ¬(c = a ∧ d = b) := by
        intro hc
        rw [if_pos hc] at h
        exact absurd h (by simp)
      rw [if_neg hcd] at h
      rw [pySplit2_cons2, if_neg hcd, ih h]

theorem pySplit2_append_sep {a b : Char} (hab : a ≠ b) :
    ∀ (e rest : List Char), containsSeq2 a b e = false →
      pySplit2 a b (e ++ a :: b :: rest) = e :: pySplit2 a b rest := by
  intro e
  induction e with
  | nil =>
    intro rest _
    simp only [List.nil_append]
    rw [pySplit2_cons2, if_pos ⟨rfl, rfl⟩]
  | cons c tl ih =>
    cases tl with
    | nil =>
      intro rest _
      have hcd : ¬(c = a ∧ a = b) := fun hc => hab hc.2
      have h0 := ih rest rfl
      simp only [List.nil_append] at h0
      simp only [List.cons_append, List.nil_append]
      rw [pySplit2_cons2, if_neg hcd, h0]
    | cons d cs =>
      intro rest h
      rw [containsSeq2] at h
      have hcd : ¬(c = a ∧ d = b) := by
        intro hc
        rw [if_pos hc] at h
        exact absurd h (by simp)
      rw [if_neg hcd] at h
      have h2 := ih rest h
      simp only [List.cons_append] at h2 ⊢
      rw [pySplit2_cons2, if_neg hcd, h2]

theorem pySplit2_joinSep {a b : Char} (hab : a ≠ b) :
    ∀ (l : List (List Char)), l ≠ [] →
      (∀ e ∈ l, containsSeq2 a b e = false) →
      pySplit2 a b (joinSep [a, b] l) = l := by
  intro l
  induction l with
  | nil => intro h; exact absurd rfl h
  | cons x tl ih =>
    intro _ hall
    cases tl with
    | nil => exact pySplit2_no_sep (hall x (by simp))
    | cons y tl2 =>
      have hx := hall x (by simp)
      simp only [joinSep]
      have hshape : x ++ [a, b] ++ joinSep [a, b] (y :: tl2) =
          x ++ a :: b :: joinSep [a, b] (y :: tl2) := by simp
      rw [hshape, pySplit2_append_sep hab x _ hx,
        ih (by simp) (fun e he => hall e (by simp [he]))]

theorem map_joinSep (f : Char → Char) (sep : List Char) :
    ∀ l : List (List Char),
      (joinSep sep l).map f = joinSep (sep.map f) (l.map (List.map f)) := by
  intro l
  induction l with
  | nil => rfl
  | cons x tl ih =>
    cases tl with
    | nil => rfl
    | cons y tl2 =>
      simp only [List.map_cons, joinSep]
      rw [List.map_append, List.map_append, ih]
      simp only [List.map_cons]

/-! ### Claim C6 -/

/-- C6 counterexample: the empty roster (vacuously delimiter-free) does not
round-trip — serializing gives the empty string, and splitting the empty
string yields `[""]`, a one-element list, not the original empty sequence. -/
theorem C6_counterexample :
    split_roster (serialize_roster []) = [""] ∧
    split_roster (serialize_roster []) ≠ ([] : List String).map pyLower := by
  exact ⟨by decide, by decide⟩

/-- C6 (amended): for every NON-EMPTY roster whose entries do not contain the
delimiter, serializing (lowercasing and delimiter-joining the entries) and
then splitting by the delimiter reconstructs exactly the original sequence of
lowercased entries, in the same order and with the same count. -/
theorem C6_theorem (roster : List String) (hne : roster ≠ [])
    (hsep : ∀ e ∈ roster, ¬(ARTIST_SEPARATOR.data <:+: e.data)) :
    split_roster (serialize_roster roster) = roster.map pyLower := by
  have hsepdata : ARTIST_SEPARATOR.data = [sepChar1, sepChar2] := by decide
  have hab : sepChar1 ≠ sepChar2 := by decide
  have hlowsep : List.map Char.toLower [sepChar1, sepChar2] = [sepChar1, sepChar2] := by
    decide
  show (pySplit2 sepChar1 sepChar2
      ((joinSep ARTIST_SEPARATOR.data (roster.map String.data)).map Char.toLower)).map
        (fun l => String.mk l) = roster.map pyLower
  rw [hsepdata, map_joinSep, hlowsep]
  have hL : (roster.map String.data).map (List.map Char.toLower) =
      (roster.map pyLower).map String.data := by
    simp only [List.map_map]
    rfl
  rw [hL]
  rw [pySplit2_joinSep hab _ (by simpa using hne) ?_]
  · simp only [List.map_map]
    rfl
  · intro e he
    simp only [List.mem_map] at he
    obtain ⟨x, hx, rfl⟩ := he
    obtain ⟨x0, hx0, rfl⟩ := hx
    cases hc : containsSeq2 sepChar1 sepChar2 (String.data (pyLower x0)) with
    | false => rfl
    | true =>
      exfalso
      have : containsSeq2 sepChar1 sepChar2 x0.data = true :=
        containsSeq2_map_toLower hc
      have hinf := containsSeq2_iff_infix.mp this
      exact hsep x0 hx0 (by rw [hsepdata]; exact hinf)

/-- C6 witness: a concrete two-entry roster round-trips to its lowercased
entries. -/
theorem C6_witness :
    split_roster (serialize_roster ["Drake", "Sia"]) = ["drake", "sia"] := by
  have h := C6_theorem ["Drake", "Sia"] (by decide) (by decide)
  rw [h]
  decide

/-! ### Helper lemmas: the candidate-week sequence -/

theorem canonicalDescAux_congr (stop : Int) :
    ∀ (n m : Nat) (curr : Int), (curr - stop).toNat < n → (curr - stop).toNat < m →
      canonicalDescAux stop n curr = canonicalDescAux stop m curr := by
  intro n
  induction n with
  | zero => intro m curr h _; exact absurd h (by omega)
  | succ n ih =>
    intro m curr hn hm
    cases m with
    | zero => exact absurd hm (by omega)
    | succ m =>
      simp only [canonicalDescAux]
      by_cases hle : curr ≤ stop
      · rw [if_pos hle, if_pos hle]
      · rw [if_neg hle, if_neg hle, ih m (curr - 7) (by omega) (by omega)]

theorem canonicalDesc_nil {stop curr : Int} (h : curr ≤ stop) :
    canonicalDesc stop curr = [] := by
  unfold canonicalDesc
  simp only [canonicalDescAux]
  rw [if_pos h]

theorem canonicalDesc_cons {stop curr : Int} (h : stop < curr) :
    canonicalDesc stop curr = curr :: canonicalDesc stop (curr - 7) := by
  show canonicalDescAux stop ((curr - stop).toNat + 1) curr =
    curr :: canonicalDescAux stop ((curr - 7 - stop).toNat + 1) (curr - 7)
  simp only [canonicalDescAux]
  rw [if_neg (by omega)]
  congr 1
  exact canonicalDescAux_congr stop ((curr - stop).toNat)
    ((curr - 7 - stop).toNat + 1) (curr - 7) (by omega) (by omega)

/-- Backward induction on the weekly timeline above a horizon. -/
theorem horizonRec (stop : Int) (P : Int → Prop)
    (base : ∀ curr, curr ≤ stop → P curr)
    (step : ∀ curr, stop < curr → P (curr - 7) → P curr) :
    ∀ curr, P curr
  | curr => by
    by_cases h : curr ≤ stop
    · exact base curr h
    · exact step curr (by omega) (horizonRec stop P base step (curr - 7))
termination_by curr => (curr - stop).toNat
decreasing_by omega

theorem canonicalDesc_mem_gt (stop : Int) :
    ∀ curr, ∀ d ∈ canonicalDesc stop curr, stop < d := by
  refine horizonRec stop _ ?_ ?_
  · intro curr h d hd
    rw [canonicalDesc_nil h] at hd
    simp at hd
  · intro curr h ih d hd
    rw [canonicalDesc_cons h] at hd
    rcases List.mem_cons.mp hd with rfl | hd
    · exact h
    · exact ih d hd

theorem canonicalDesc_mem_le (stop : Int) :
    ∀ curr, ∀ d ∈ canonicalDesc stop curr, d ≤ curr := by
  refine horizonRec stop _ ?_ ?_
  · intro curr h d hd
    rw [canonicalDesc_nil h] at hd
    simp at hd
  · intro curr h ih d hd
    rw [canonicalDesc_cons h] at hd
    rcases List.mem_cons.mp hd with rfl | hd
    · exact le_refl d
    · have := ih d hd
      omega

theorem canonicalDesc_mem_mod (stop : Int) :
    ∀ curr, ∀ d ∈ canonicalDesc stop curr, d % 7 = curr % 7 := by
  refine horizonRec stop _ ?_ ?_
  · intro curr h d hd
    rw [canonicalDesc_nil h] at hd
    simp at hd
  · intro curr h ih d hd
    rw [canonicalDesc_cons h] at hd
    rcases List.mem_cons.mp hd with rfl | hd
    · rfl
    · have := ih d hd
      omega

theorem canonicalDesc_nodup (stop : Int) :
    ∀ curr, (canonicalDesc stop curr).Nodup := by
  refine horizonRec stop _ ?_ ?_
  · intro curr h
    rw [canonicalDesc_nil h]
    exact List.nodup_nil
  · intro curr h ih
    rw [canonicalDesc_cons h]
    refine List.nodup_cons.mpr ⟨?_, ih⟩
    intro hmem
    have := canonicalDesc_mem_le stop (curr - 7) curr hmem
    omega

theorem canonicalDesc_chain (stop : Int) :
    ∀ curr, List.Chain' (fun x y => y = x - 7) (canonicalDesc stop curr) := by
  refine horizonRec stop _ ?_ ?_
  · intro curr h
    rw [canonicalDesc_nil h]
    exact List.chain'_nil
  · intro curr h ih
    rw [canonicalDesc_cons h, List.chain'_cons']
    refine ⟨?_, ih⟩
    intro y hy
    by_cases h2 : curr - 7 ≤ stop
    · rw [canonicalDesc_nil h2] at hy
      simp at hy
    · rw [canonicalDesc_cons (show stop < curr - 7 by omega)] at hy
      simp at hy
      omega

theorem canonicalDesc_step_mem (stop : Int) :
    ∀ curr, ∀ d ∈ canonicalDesc stop curr, stop < d - 7 →
      d - 7 ∈ canonicalDesc stop curr := by
  refine horizonRec stop _ ?_ ?_
  · intro curr h d hd
    rw [canonicalDesc_nil h] at hd
    simp at hd
  · intro curr h ih d hd hgt
    rw [canonicalDesc_cons h] at hd ⊢
    rcases List.mem_cons.mp hd with rfl | hd
    · exact List.mem_cons_of_mem _ (by rw [canonicalDesc_cons hgt]; exact List.mem_cons_self _ _)
    · exact List.mem_cons_of_mem _ (ih d hd hgt)

theorem canonicalDesc_complete (stop : Int) :
    ∀ curr, ∀ d : Int, stop < d → d ≤ curr → (∃ k : Nat, d = curr - 7 * k) →
      d ∈ canonicalDesc stop curr := by
  refine horizonRec stop _ ?_ ?_
  · intro curr h d hd hle _
    exfalso
    omega
  · intro curr h ih d hd hle hex
    obtain ⟨k, hk⟩ := hex
    rw [canonicalDesc_cons h]
    cases k with
    | zero =>
      simp at hk
      subst hk
      exact List.mem_cons_self _ _
    | succ k =>
      push_cast at hk
      refine List.mem_cons_of_mem _ (ih d hd (by omega) ⟨k, by omega⟩)

/-! ### Helper lemmas: the odd-date table -/

theorem ODD_find_eq_some {curr : Int} {p : Int × Int}
    (h : ODD_DATES.find? (fun q => q.1 == curr) = some p) :
    p = (mkDate 1976 7 3, mkDate 1976 7 4) ∧ curr = mkDate 1976 7 3 := by
  have hmem := List.mem_of_find?_eq_some h
  have hpred := List.find?_some h
  simp only [ODD_DATES, List.mem_singleton] at hmem
  subst hmem
  simp only [beq_iff_eq] at hpred
  exact ⟨rfl, hpred.symm⟩

theorem substOdd_odd : substOdd (mkDate 1976 7 3) = mkDate 1976 7 4 := by decide

theorem key_from_value_odd :
    key_from_value ODD_DATES (mkDate 1976 7 4) = some (mkDate 1976 7 3) := by decide

/-! ### Helper lemmas: single scan steps -/

theorem get_or_fetch_hit {chart : String} {source : Source} {d : Int} {db : DB}
    {s : String} (hs : db.lookup (chart_name_to_table_name chart) d = some s) :
    get_or_fetch chart source d db =
      (some s, db, [.cacheLookup (chart_name_to_table_name chart) d true]) := by
  simp only [get_or_fetch, hs]

theorem get_or_fetch_miss_fail {chart : String} {source : Source} {d : Int} {db : DB}
    (hmiss : db.lookup (chart_name_to_table_name chart) d = none)
    (hsrc : source chart d = none) :
    get_or_fetch chart source d db =
      (none, db,
        [.cacheLookup (chart_name_to_table_name chart) d false,
         .sourceFetch chart d]) := by
  simp only [get_or_fetch, fetch_and_insert_date, hmiss, hsrc]

theorem get_or_fetch_miss_ok {chart : String} {source : Source} {d : Int} {db : DB}
    {cd : ChartData}
    (hmiss : db.lookup (chart_name_to_table_name chart) d = none)
    (hsrc : source chart d = some cd) :
    get_or_fetch chart source d db =
      (some (serialize_roster
          ((if chart = "hot-100" then cd.entries else cd.entries.take 20).map (·.artist))),
       db.insert (chart_name_to_table_name chart) cd.date
         (serialize_roster
           ((if chart = "hot-100" then cd.entries else cd.entries.take 20).map (·.artist))),
       [.cacheLookup (chart_name_to_table_name chart) d false,
        .sourceFetch chart d,
        .dbInsert (chart_name_to_table_name chart) cd.date
          (serialize_roster
            ((if chart = "hot-100" then cd.entries else cd.entries.take 20).map (·.artist)))]) := by
  simp only [get_or_fetch, fetch_and_insert_date, hmiss, hsrc]

theorem loop_notFound {artist chart : String} {source : Source} {stop : Int}
    {fuel : Nat} {curr : Int} {db : DB} (h : ¬curr > stop) :
    find_in_table_loop artist chart source stop (fuel + 1) curr db =
      (.notFound, db, []) := by
  simp only [find_in_table_loop]
  rw [if_neg h]

/-- One iteration of the scan loop: the week is queried at the odd-substituted
date, and on no hit the walk continues from the canonical date minus seven
days (the reverse odd-date lookup always restores the canonical date). -/
theorem loop_step {artist chart : String} {source : Source} {stop : Int}
    {fuel : Nat} {curr : Int} {db : DB} (hgt : curr > stop) :
    find_in_table_loop artist chart source stop (fuel + 1) curr db =
      match get_or_fetch chart source (substOdd curr) db with
      | (none, db2, evs) => (.sourceError, db2, evs)
      | (some res_str, db2, evs) =>
        match match_artist artist res_str with
        | some (a, i) => (.found ⟨substOdd curr, a, i⟩, db2, evs)
        | none =>
          ((find_in_table_loop artist chart source stop fuel (curr - 7) db2).1,
           (find_in_table_loop artist chart source stop fuel (curr - 7) db2).2.1,
           evs ++ (find_in_table_loop artist chart source stop fuel (curr - 7) db2).2.2) := by
  cases hfo : ODD_DATES.find? (fun p => p.1 == curr) with
  | none =>
    have hsub : substOdd curr = curr := by
      unfold substOdd
      rw [hfo]
    rw [hsub]
    simp only [find_in_table_loop, hfo, if_pos hgt, Bool.false_eq_true, ite_false]
  | some p =>
    obtain ⟨hp, hc⟩ := ODD_find_eq_some hfo
    subst hc
    subst hp
    rw [substOdd_odd]
    simp only [find_in_table_loop, hfo, if_pos hgt, key_from_value_odd, ite_true]

/-- Decidable observer: the cache holds the week and the matcher finds no hit
in it. -/
def cachedNoMatch (artist chart : String) (db : DB) (d : Int) : Bool :=
  match db.lookup (chart_name_to_table_name chart) d with
  | some s => decide (match_artist artist s = none)
  | none => false

theorem cachedNoMatch_elim {artist chart : String} {db : DB} {d : Int}
    (h : cachedNoMatch artist chart db d = true) :
    ∃ s, db.lookup (chart_name_to_table_name chart) d = some s ∧
      match_artist artist s = none := by
  unfold cachedNoMatch at h
  cases hl : db.lookup (chart_name_to_table_name chart) d with
  | none => rw [hl] at h; simp at h
  | some s =>
    rw [hl] at h
    simp at h
    exact ⟨s, rfl, h⟩

/-- A scan over weeks that are all cached and all matcher-negative returns
nothing and its trace is exactly one cache hit per candidate week, queried at
the odd-substituted date. -/
theorem loop_all_cached_no_match (artist chart : String) (source : Source) (stop : Int) :
    ∀ (fuel : Nat) (curr : Int) (db : DB),
      (curr - stop).toNat + 7 ≤ 7 * fuel →
      (∀ d ∈ canonicalDesc stop curr, cachedNoMatch artist chart db (substOdd d) = true) →
      find_in_table_loop artist chart source stop fuel curr db =
        (.notFound, db,
          (canonicalDesc stop curr).map
            (fun d => .cacheLookup (chart_name_to_table_name chart) (substOdd d) true)) := by
  intro fuel
  induction fuel with
  | zero => intro curr db hf _; exact absurd hf (by omega)
  | succ f ih =>
    intro curr db hf hdb
    by_cases hle : curr ≤ stop
    · rw [canonicalDesc_nil hle, loop_notFound (by omega)]
      rfl
    · have hgt : curr > stop := by omega
      have hcons := canonicalDesc_cons (show stop < curr by omega)
      obtain ⟨s, hs, hm⟩ :=
        cachedNoMatch_elim (hdb curr (by rw [hcons]; exact List.mem_cons_self _ _))
      rw [loop_step hgt, get_or_fetch_hit hs]
      simp only [hm]
      rw [ih (curr - 7) db (by omega)
        (fun d hd => hdb d (by rw [hcons]; exact List.mem_cons_of_mem _ hd))]
      rw [hcons]
      simp

theorem fam_lookup_true (t : String) (d : Int) (rest : List Event) :
    fetchesAfterMiss (.cacheLookup t d true :: rest) = fetchesAfterMiss rest := rfl

theorem fam_insert (t : String) (d : Int) (a : String) (rest : List Event) :
    fetchesAfterMiss (.dbInsert t d a :: rest) = fetchesAfterMiss rest := rfl

theorem fam_miss_fetch (t c : String) (d : Int) (rest : List Event) :
    fetchesAfterMiss (.cacheLookup t d false :: .sourceFetch c d :: rest) =
      fetchesAfterMiss rest := by
  show (d == d && fetchesAfterMiss rest) = fetchesAfterMiss rest
  simp

/-- Inside the scan loop, every Chart Source fetch is immediately preceded by
a cache miss for the same date. -/
theorem loop_fetches_after_miss (artist chart : String) (source : Source) (stop : Int) :
    ∀ (fuel : Nat) (curr : Int) (db : DB),
      fetchesAfterMiss (find_in_table_loop artist chart source stop fuel curr db).2.2 = true := by
  intro fuel
  induction fuel with
  | zero => intro curr db; rfl
  | succ f ih =>
    intro curr db
    by_cases hgt : curr > stop
    · rw [loop_step hgt]
      cases hs : db.lookup (chart_name_to_table_name chart) (substOdd curr) with
      | some s =>
        rw [get_or_fetch_hit hs]
        cases hm : match_artist artist s with
        | some ai =>
          obtain ⟨a, i⟩ := ai
          simp only [hm]
          rfl
        | none =>
          simp only [hm, List.cons_append, List.nil_append]
          rw [fam_lookup_true]
          exact ih (curr - 7) db
      | none =>
        cases hsrc : source chart (substOdd curr) with
        | none =>
          rw [get_or_fetch_miss_fail hs hsrc]
          simp only []
          rw [fam_miss_fetch]
          rfl
        | some cd =>
          rw [get_or_fetch_miss_ok hs hsrc]
          cases hm : match_artist artist (serialize_roster
              ((if chart = "hot-100" then cd.entries
                else cd.entries.take 20).map (·.artist))) with
          | some ai =>
            obtain ⟨a, i⟩ := ai
            simp only [hm]
            rw [fam_miss_fetch, fam_insert]
            rfl
          | none =>
            simp only [hm, List.cons_append, List.nil_append]
            rw [fam_miss_fetch, fam_insert]
            exact ih (curr - 7) _
    · rw [loop_notFound hgt]
      rfl

/-- The reverse odd-date lookup never fails inside the scan loop: the
`ValueError` outcome is unreachable. -/
theorem loop_ne_keyError (artist chart : String) (source : Source) (stop : Int) :
    ∀ (fuel : Nat) (curr : Int) (db : DB),
      (find_in_table_loop artist chart source stop fuel curr db).1 ≠ Outcome.keyError := by
  intro fuel
  induction fuel with
  | zero => intro curr db; simp [find_in_table_loop]
  | succ f ih =>
    intro curr db
    by_cases hgt : curr > stop
    · rw [loop_step hgt]
      cases hs : db.lookup (chart_name_to_table_name chart) (substOdd curr) with
      | some s =>
        rw [get_or_fetch_hit hs]
        cases hm : match_artist artist s with
        | some ai =>
          obtain ⟨a, i⟩ := ai
          simp [hm]
        | none =>
          simp only [hm]
          exact ih (curr - 7) db
      | none =>
        cases hsrc : source chart (substOdd curr) with
        | none =>
          rw [get_or_fetch_miss_fail hs hsrc]
          simp
        | some cd =>
          rw [get_or_fetch_miss_ok hs hsrc]
          cases hm : match_artist artist (serialize_roster
              ((if chart = "hot-100" then cd.entries
                else cd.entries.take 20).map (·.artist))) with
          | some ai =>
            obtain ⟨a, i⟩ := ai
            simp [hm]
          | none =>
            simp only [hm]
            exact ih (curr - 7) _
    · rw [loop_notFound hgt]
      simp

/-- A freshly inserted row is found by a later lookup with the same key. -/
theorem lookup_insert_self {db : DB} {tbl : String} {d : Int} {s : String}
    (htbl : tbl = "hot100" ∨ tbl = "bb200")
    (hnone : db.lookup tbl d = none) :
    (db.insert tbl d s).lookup tbl d = some s := by
  have hfind : ∀ l : List (Int × String), l.find? (fun p => p.1 == d) = none →
      (l ++ [(d, s)]).find? (fun p => p.1 == d) = some (d, s) := by
    intro l hl
    rw [List.find?_append, hl]
    simp [List.find?]
  rcases htbl with h | h <;> subst h
  · have hget : db.getTable "hot100" = db.hot100 := rfl
    have hall : (db.insert "hot100" d s).getTable "hot100" = db.hot100 ++ [(d, s)] := rfl
    unfold DB.lookup at hnone ⊢
    rw [hget] at hnone
    rw [hall]
    cases hf : db.hot100.find? (fun p => p.1 == d) with
    | none => rw [hfind db.hot100 hf]; rfl
    | some q => rw [hf] at hnone; simp at hnone
  · have hget : db.getTable "bb200" = db.bb200 := rfl
    have hall : (db.insert "bb200" d s).getTable "bb200" = db.bb200 ++ [(d, s)] := rfl
    unfold DB.lookup at hnone ⊢
    rw [hget] at hnone
    rw [hall]
    cases hf : db.bb200.find? (fun p => p.1 == d) with
    | none => rw [hfind db.bb200 hf]; rfl
    | some q => rw [hf] at hnone; simp at hnone

/-- Serialization yields a non-empty string unless the roster is empty or a
single empty name. -/
theorem serialize_ne_empty {names : List String}
    (h1 : names ≠ []) (h2 : names ≠ [""]) :
    serialize_roster names ≠ "" := by
  intro he
  have hdata : (joinSep ARTIST_SEPARATOR.data (names.map String.data)).map Char.toLower = [] :=
    congrArg String.data he
  rw [List.map_eq_nil_iff] at hdata
  cases hnames : names with
  | nil => exact h1 hnames
  | cons x tl =>
    cases tl with
    | nil =>
      rw [hnames] at hdata
      simp only [List.map_cons, List.map_nil, joinSep] at hdata
      have hx : x = "" := String.ext hdata
      exact h2 (by rw [hnames, hx])
    | cons y tl2 =>
      rw [hnames] at hdata
      simp only [List.map_cons, joinSep] at hdata
      rcases List.append_eq_nil.mp hdata with ⟨hleft, -⟩
      rcases List.append_eq_nil.mp hleft with ⟨-, hsep⟩
      exact absurd hsep (by decide)

theorem substOdd_not_odd {d : Int} (h : d ≠ mkDate 1976 7 3) : substOdd d = d := by
  unfold substOdd
  cases hfo : ODD_DATES.find? (fun p => p.1 == d) with
  | none => rfl
  | some p => exact absurd (ODD_find_eq_some hfo).2 h

/-! ### Claim C3 -/

/-- C3 counterexample: an albums-chart scan starting one week after the
horizon finds no match and returns nothing, but its full trace shows that the
horizon week `1963-08-17` itself is never examined: the only cache lookup is
for `1963-08-24` (the loop guard is strict, `while curr_week > stop_date`). -/
theorem C3_counterexample :
    find_in_bb200 "q" (BILLBOARD_200_EARLIEST + 7)
        ⟨[], [(BILLBOARD_200_EARLIEST + 7, "x")]⟩ (fun _ d => some ⟨d, [⟨"x"⟩]⟩) =
      (.notFound, ⟨[], [(BILLBOARD_200_EARLIEST + 7, "x")]⟩,
        [.sourceFetch "billboard-200" (BILLBOARD_200_EARLIEST + 7),
         .cacheLookup "bb200" (BILLBOARD_200_EARLIEST + 7) true])
    ∧ (∀ hit : Bool,
        Event.cacheLookup "bb200" BILLBOARD_200_EARLIEST hit ∉
          (find_in_bb200 "q" (BILLBOARD_200_EARLIEST + 7)
            ⟨[], [(BILLBOARD_200_EARLIEST + 7, "x")]⟩ (fun _ d => some ⟨d, [⟨"x"⟩]⟩)).2.2) := by
  exact ⟨by decide, by decide⟩

/-- C3 (amended): a scan that finds no match anywhere examines every candidate
week from the (resolved) starting date down to and EXCLUDING the horizon —
the horizon week itself is never examined — and returns nothing. The trace
equality lists exactly one cache lookup per candidate; the second conjunct
bounds all candidates strictly above the horizon; the third states
completeness: every week on the seven-day grid strictly between the horizon
and the resolved start is examined. -/
theorem C3_theorem (artist chart : String) (source : Source) (db : DB)
    (start stop : Int) (cd : ChartData)
    (hres : source chart start = some cd)
    (hdb : ∀ d ∈ canonicalDesc stop cd.date,
        cachedNoMatch artist chart db (substOdd d) = true) :
    (find_in_table artist db source start stop chart =
      (.notFound, db, .sourceFetch chart start ::
        (canonicalDesc stop cd.date).map
          (fun d => .cacheLookup (chart_name_to_table_name chart) (substOdd d) true)))
    ∧ (∀ d ∈ canonicalDesc stop cd.date, stop < d)
    ∧ (∀ d : Int, stop < d → d ≤ cd.date → (∃ k : Nat, d = cd.date - 7 * k) →
        d ∈ canonicalDesc stop cd.date) := by
  refine ⟨?_, canonicalDesc_mem_gt stop cd.date, canonicalDesc_complete stop cd.date⟩
  simp only [find_in_table, hres]
  rw [loop_all_cached_no_match artist chart source stop _ cd.date db (by omega) hdb]

/-- C3 witness: a two-week albums-chart scan with both weeks cached and no
match examines exactly the two candidate weeks above the horizon. -/
theorem C3_witness :
    find_in_table "q"
        ⟨[], [(BILLBOARD_200_EARLIEST + 14, "x"), (BILLBOARD_200_EARLIEST + 7, "x")]⟩
        (fun _ _ => some ⟨BILLBOARD_200_EARLIEST + 14, []⟩)
        (BILLBOARD_200_EARLIEST + 14) BILLBOARD_200_EARLIEST "billboard-200" =
      (.notFound,
        ⟨[], [(BILLBOARD_200_EARLIEST + 14, "x"), (BILLBOARD_200_EARLIEST + 7, "x")]⟩,
        [.sourceFetch "billboard-200" (BILLBOARD_200_EARLIEST + 14),
         .cacheLookup "bb200" (BILLBOARD_200_EARLIEST + 14) true,
         .cacheLookup "bb200" (BILLBOARD_200_EARLIEST + 7) true]) := by
  have h := C3_theorem "q" "billboard-200"
      (fun _ _ => some ⟨BILLBOARD_200_EARLIEST + 14, []⟩)
      ⟨[], [(BILLBOARD_200_EARLIEST + 14, "x"), (BILLBOARD_200_EARLIEST + 7, "x")]⟩
      (BILLBOARD_200_EARLIEST + 14) BILLBOARD_200_EARLIEST
      ⟨BILLBOARD_200_EARLIEST + 14, []⟩ rfl (by decide)
  rw [h.1]
  decide

/-! ### Claim C5 -/

/-- C5: in a full scan (all weeks cached, no match), the canonical candidate
sequence steps down by exactly seven days, stays strictly above the horizon,
continues whenever another seven-day step stays above the horizon, and the
queried dates (canonical dates with the odd-date substitution applied) are
pairwise distinct; for the odd week `1976-07-03` the query uses `1976-07-04`
while the chain steps from the canonical date. -/
theorem C5_theorem (artist chart : String) (source : Source) (db : DB)
    (start stop : Int) (cd : ChartData)
    (hres : source chart start = some cd)
    (hdb : ∀ d ∈ canonicalDesc stop cd.date,
        cachedNoMatch artist chart db (substOdd d) = true) :
    (find_in_table artist db source start stop chart =
      (.notFound, db, .sourceFetch chart start ::
        (canonicalDesc stop cd.date).map
          (fun d => .cacheLookup (chart_name_to_table_name chart) (substOdd d) true)))
    ∧ List.Chain' (fun x y => y = x - 7) (canonicalDesc stop cd.date)
    ∧ (∀ d ∈ canonicalDesc stop cd.date, stop < d)
    ∧ (∀ d ∈ canonicalDesc stop cd.date, stop < d - 7 →
        d - 7 ∈ canonicalDesc stop cd.date)
    ∧ ((canonicalDesc stop cd.date).map substOdd).Nodup
    ∧ substOdd (mkDate 1976 7 3) = mkDate 1976 7 4 := by
  refine ⟨?_, canonicalDesc_chain stop cd.date, canonicalDesc_mem_gt stop cd.date,
    canonicalDesc_step_mem stop cd.date, ?_, substOdd_odd⟩
  · simp only [find_in_table, hres]
    rw [loop_all_cached_no_match artist chart source stop _ cd.date db (by omega) hdb]
  · apply List.Nodup.map_on ?_ (canonicalDesc_nodup stop cd.date)
    intro x hx y hy hxy
    have hmx := canonicalDesc_mem_mod stop cd.date x hx
    have hmy := canonicalDesc_mem_mod stop cd.date y hy
    have hKV : mkDate 1976 7 4 = mkDate 1976 7 3 + 1 := by decide
    by_cases h1 : x = mkDate 1976 7 3 <;> by_cases h2 : y = mkDate 1976 7 3
    · rw [h1, h2]
    · rw [h1, substOdd_odd, substOdd_not_odd h2] at hxy
      exfalso
      omega
    · rw [substOdd_not_odd h1, h2, substOdd_odd] at hxy
      exfalso
      omega
    · rw [substOdd_not_odd h1, substOdd_not_odd h2] at hxy
      exact hxy

/-- C5 witness: a scan crossing the odd week: the canonical candidates are
`1976-07-10` and `1976-07-03`, the queried dates are `1976-07-10` and the
substituted `1976-07-04`. -/
theorem C5_witness :
    find_in_table "q" ⟨[(mkDate 1976 7 10, "x"), (mkDate 1976 7 4, "x")], []⟩
        (fun _ _ => some ⟨mkDate 1976 7 10, []⟩)
        (mkDate 1976 7 10) (mkDate 1976 6 26) "hot-100" =
      (.notFound, ⟨[(mkDate 1976 7 10, "x"), (mkDate 1976 7 4, "x")], []⟩,
        [.sourceFetch "hot-100" (mkDate 1976 7 10),
         .cacheLookup "hot100" (mkDate 1976 7 10) true,
         .cacheLookup "hot100" (mkDate 1976 7 4) true]) := by
  have h := C5_theorem "q" "hot-100" (fun _ _ => some ⟨mkDate 1976 7 10, []⟩)
      ⟨[(mkDate 1976 7 10, "x"), (mkDate 1976 7 4, "x")], []⟩
      (mkDate 1976 7 10) (mkDate 1976 6 26)
      ⟨mkDate 1976 7 10, []⟩ rfl (by decide)
  rw [h.1]
  decide

/-! ### Claim C4 -/

/-- C4 counterexample: the very first action of a scan is a Chart Source call
(the starting-date resolution of line 86), made before any cache lookup, so
the full trace fails the fetch-after-miss discipline; the second conjunct
confirms a Chart Source call did occur in that scan. -/
theorem C4_counterexample :
    fetchesAfterMiss
      (find_in_table "q" ⟨[(mkDate 2020 1 4, "x")], []⟩
        (fun _ d => some ⟨d, [⟨"x"⟩]⟩) (mkDate 2020 1 4) (mkDate 2019 12 28)
        "hot-100").2.2 = false
    ∧ Event.sourceFetch "hot-100" (mkDate 2020 1 4) ∈
        (find_in_table "q" ⟨[(mkDate 2020 1 4, "x")], []⟩
          (fun _ d => some ⟨d, [⟨"x"⟩]⟩) (mkDate 2020 1 4) (mkDate 2019 12 28)
          "hot-100").2.2 := by
  exact ⟨by decide, by decide⟩

/-- C4 (amended): apart from the initial starting-date resolution fetch, every
Chart Source call of a scan is immediately preceded by a cache lookup that
missed for the same date. -/
theorem C4_theorem (artist chart : String) (source : Source) (db : DB)
    (start stop : Int) :
    ∃ rest, (find_in_table artist db source start stop chart).2.2 =
        .sourceFetch chart start :: rest ∧ fetchesAfterMiss rest = true := by
  cases hres : source chart start with
  | none =>
    refine ⟨[], ?_, rfl⟩
    simp [find_in_table, hres]
  | some cd =>
    refine ⟨_, ?_,
      loop_fetches_after_miss artist chart source stop
        (((cd.date - stop).toNat + 7) / 7 + 1) cd.date db⟩
    simp only [find_in_table, hres]

/-! ### Claim C10 -/

/-- C10: the scan never raises the `ValueError` of `key_from_value` (the
reverse odd-date lookup is only ever applied to a value just produced by the
forward lookup), and the reverse lookup inverts the forward lookup: whenever
the forward lookup of `d` succeeds, looking the found value back up returns
`d` itself. -/
theorem C10_theorem :
    (∀ (artist chart : String) (source : Source) (db : DB) (start stop : Int),
        (find_in_table artist db source start stop chart).1 ≠ Outcome.keyError)
    ∧ (∀ (d : Int) (p : Int × Int),
        ODD_DATES.find? (fun q => q.1 == d) = some p →
        key_from_value ODD_DATES p.2 = some d) := by
  constructor
  · intro artist chart source db start stop
    cases hres : source chart start with
    | none =>
      simp only [find_in_table, hres]
      simp
    | some cd =>
      simp only [find_in_table, hres]
      exact loop_ne_keyError artist chart source stop _ cd.date db
  · intro d p h
    obtain ⟨hp, hd⟩ := ODD_find_eq_some h
    subst hp
    rw [hd]
    exact key_from_value_odd

/-- C10 witness: the reverse lookup of the substituted date `1976-07-04`
returns the canonical date `1976-07-03`. -/
theorem C10_witness :
    key_from_value ODD_DATES (mkDate 1976 7 4) = some (mkDate 1976 7 3) :=
  C10_theorem.2 (mkDate 1976 7 3) (mkDate 1976 7 3, mkDate 1976 7 4) (by decide)

/-! ### Claim C2 -/

/-- C2 counterexample: when the Chart Source reports a publication date
(`2020-01-11`) different from the requested date (`2020-01-04`), the miss path
persists the row under the REPORTED date: no row keyed by the requested date
exists afterwards, and a subsequent `get_or_fetch` with the same requested
key misses again and performs another Chart Source call. -/
theorem C2_counterexample :
    (get_or_fetch "hot-100" (fun _ _ => some ⟨mkDate 2020 1 11, [⟨"Drake"⟩]⟩)
        (mkDate 2020 1 4) ⟨[], []⟩).2.1.lookup "hot100" (mkDate 2020 1 4) = none
    ∧ Event.sourceFetch "hot-100" (mkDate 2020 1 4) ∈
        (get_or_fetch "hot-100" (fun _ _ => some ⟨mkDate 2020 1 11, [⟨"Drake"⟩]⟩)
          (mkDate 2020 1 4)
          (get_or_fetch "hot-100" (fun _ _ => some ⟨mkDate 2020 1 11, [⟨"Drake"⟩]⟩)
            (mkDate 2020 1 4) ⟨[], []⟩).2.1).2.2 := by
  exact ⟨by decide, by decide⟩

/-- C2 (amended): a `get_or_fetch` miss persists exactly one row, keyed by the
Chart Source's REPORTED publication date (`chart.date`), not by the requested
date; the roster string is non-empty provided the truncated entry list is
neither empty nor a single empty artist name; and a subsequent `get_or_fetch`
keyed by the reported date finds the row and performs no Chart Source call. -/
theorem C2_theorem (chart : String) (source : Source) (d : Int) (db : DB)
    (cd : ChartData) (names : List String) (str tbl : String)
    (htbl : tbl = chart_name_to_table_name chart)
    (hchart : chart = "hot-100" ∨ chart = "billboard-200")
    (hnames : names =
      (if chart = "hot-100" then cd.entries else cd.entries.take 20).map (·.artist))
    (hstr : str = serialize_roster names)
    (hmiss : db.lookup tbl d = none)
    (hsrc : source chart d = some cd)
    (hmiss2 : db.lookup tbl cd.date = none) :
    get_or_fetch chart source d db =
      (some str, db.insert tbl cd.date str,
        [.cacheLookup tbl d false, .sourceFetch chart d, .dbInsert tbl cd.date str])
    ∧ (names ≠ [] ∧ names ≠ [""] → str ≠ "")
    ∧ get_or_fetch chart source cd.date (db.insert tbl cd.date str) =
        (some str, db.insert tbl cd.date str, [.cacheLookup tbl cd.date true]) := by
  subst htbl
  subst hnames
  subst hstr
  have htl : chart_name_to_table_name chart = "hot100" ∨
      chart_name_to_table_name chart = "bb200" := by
    rcases hchart with h | h <;> subst h
    · left; rfl
    · right; rfl
  exact ⟨get_or_fetch_miss_ok hmiss hsrc,
    fun hn => serialize_ne_empty hn.1 hn.2,
    get_or_fetch_hit (lookup_insert_self htl hmiss2)⟩

/-- C2 witness: a miss for `2020-01-04` whose source reports the same date
persists `("drake")` under that key; the amended theorem instantiated. -/
theorem C2_witness :
    get_or_fetch "hot-100" (fun _ _ => some ⟨mkDate 2020 1 4, [⟨"Drake"⟩]⟩)
        (mkDate 2020 1 4) ⟨[], []⟩ =
      (some "drake", ⟨[(mkDate 2020 1 4, "drake")], []⟩,
        [.cacheLookup "hot100" (mkDate 2020 1 4) false,
         .sourceFetch "hot-100" (mkDate 2020 1 4),
         .dbInsert "hot100" (mkDate 2020 1 4) "drake"]) := by
  have h := C2_theorem "hot-100" (fun _ _ => some ⟨mkDate 2020 1 4, [⟨"Drake"⟩]⟩)
      (mkDate 2020 1 4) ⟨[], []⟩ ⟨mkDate 2020 1 4, [⟨"Drake"⟩]⟩
      ["Drake"] (serialize_roster ["Drake"]) "hot100"
      (by decide) (Or.inl rfl) (by decide) rfl rfl rfl rfl
  rw [h.1]
  decide

/-! ### Claim C7 -/

/-- C7: a failed Chart Source fetch propagates uncaught: `fetch_and_insert_date`
returns the error with the database unchanged and no insert event (no retry,
no partial result), and a scan reaching that week aborts with `sourceError`,
its cache state unchanged, after exactly one fetch attempt for the week. -/
theorem C7_theorem (chart : String) (source : Source) (d : Int) (db : DB)
    (hfail : source chart d = none) :
    fetch_and_insert_date source d chart db = (none, db, [.sourceFetch chart d])
    ∧ (∀ (artist : String) (start stop : Int) (cd : ChartData),
        source chart start = some cd → stop < cd.date → substOdd cd.date = d →
        db.lookup (chart_name_to_table_name chart) d = none →
        find_in_table artist db source start stop chart =
          (.sourceError, db,
            [.sourceFetch chart start,
             .cacheLookup (chart_name_to_table_name chart) d false,
             .sourceFetch chart d])) := by
  constructor
  · simp only [fetch_and_insert_date, hfail]
  · intro artist start stop cd hres hgt hsub hmiss
    simp only [find_in_table, hres]
    rw [loop_step (show cd.date > stop by omega), hsub,
      get_or_fetch_miss_fail hmiss hfail]

/-- C7 witness: a source that resolves the start date but fails for the
resolved week makes the scan abort with the cache unchanged. -/
theorem C7_witness :
    find_in_table "q" ⟨[], []⟩
        (fun _ x => if x = mkDate 2020 1 1 then some ⟨mkDate 2020 1 4, []⟩ else none)
        (mkDate 2020 1 1) (mkDate 2019 1 1) "hot-100" =
      (.sourceError, ⟨[], []⟩,
        [.sourceFetch "hot-100" (mkDate 2020 1 1),
         .cacheLookup "hot100" (mkDate 2020 1 4) false,
         .sourceFetch "hot-100" (mkDate 2020 1 4)]) := by
  have h := C7_theorem "hot-100"
      (fun _ x => if x = mkDate 2020 1 1 then some ⟨mkDate 2020 1 4, []⟩ else none)
      (mkDate 2020 1 4) ⟨[], []⟩ (by decide)
  exact h.2 "q" (mkDate 2020 1 1) (mkDate 2019 1 1) ⟨mkDate 2020 1 4, []⟩
    (by decide) (by decide) (by decide) rfl

/-! ### Claim C8 -/

/-- C8: when the queried week's cached roster contains the query in some entry
and the match is not rejected by the featuring exclusion, the scan returns
immediately — exactly one cache lookup, no further scanning — with the full
text of the first matching entry and its 1-indexed position. -/
theorem C8_theorem (artist chart : String) (source : Source) (db : DB)
    (start stop : Int) (cd : ChartData) (res_str : String)
    (l : List String) (k : Nat) (hk : k < l.length)
    (hres : source chart start = some cd)
    (hgt : stop < cd.date)
    (hs : db.lookup (chart_name_to_table_name chart) (substOdd cd.date) = some res_str)
    (hin : pyIn artist res_str = true)
    (hnf : directly_follows artist " featuring " res_str = false)
    (hl : l = split_roster res_str)
    (hhit : pyIn artist (l.get ⟨k, hk⟩) = true)
    (hprev : ∀ j (hj : j < k), pyIn artist (l.get ⟨j, Nat.lt_trans hj hk⟩) = false) :
    find_in_table artist db source start stop chart =
      (.found ⟨substOdd cd.date, l.get ⟨k, hk⟩, k + 1⟩, db,
        [.sourceFetch chart start,
         .cacheLookup (chart_name_to_table_name chart) (substOdd cd.date) true]) := by
  have hma : match_artist artist res_str = some (l.get ⟨k, hk⟩, k + 1) := by
    rw [match_artist, if_pos (by simp [hin, hnf]), ← hl]
    have := find_entry_eq artist l 0 k hk hhit hprev
    simpa using this
  simp only [find_in_table, hres]
  rw [loop_step (show cd.date > stop by omega), get_or_fetch_hit hs]
  simp only [hma]

/-- C8 witness: end-to-end scenario A — roster
`["avril lavigne", "drake", "sia"]` at `2020-01-04` on the singles chart,
query `"drake"`, yields the hit `(2020-01-04, "drake", 2)`. -/
theorem C8_witness :
    find_in_table "drake" ⟨[(mkDate 2020 1 4, "avril lavigne`~drake`~sia")], []⟩
        (fun _ _ => some ⟨mkDate 2020 1 4, []⟩) (mkDate 2020 1 4) (mkDate 2000 1 1)
        "hot-100" =
      (.found ⟨mkDate 2020 1 4, "drake", 2⟩,
       ⟨[(mkDate 2020 1 4, "avril lavigne`~drake`~sia")], []⟩,
       [.sourceFetch "hot-100" (mkDate 2020 1 4),
        .cacheLookup "hot100" (mkDate 2020 1 4) true]) := by
  have h := C8_theorem "drake" "hot-100" (fun _ _ => some ⟨mkDate 2020 1 4, []⟩)
      ⟨[(mkDate 2020 1 4, "avril lavigne`~drake`~sia")], []⟩
      (mkDate 2020 1 4) (mkDate 2000 1 1) ⟨mkDate 2020 1 4, []⟩
      "avril lavigne`~drake`~sia" ["avril lavigne", "drake", "sia"] 1 (by decide)
      rfl (by decide) (by decide) (by decide) (by decide) (by decide) (by decide)
      (fun j hj => by
        have hj0 : j = 0 := by omega
        subst hj0
        exact (by decide : pyIn "drake" "avril lavigne" = false))
  rw [h]
  decide

/-! ### Claim C9 -/

/-- C9: a hit in the odd week returns the substituted actual publication date
`1976-07-04`, not the canonical `1976-07-03` (the reversion to the canonical
date happens only after the match check), so a caller resuming from one week
before the returned date resumes from `1976-07-04 - 7`, which differs from
the canonical `1976-07-03 - 7`. -/
theorem C9_theorem (artist chart : String) (source : Source) (db : DB)
    (start stop : Int) (cd : ChartData) (s a : String) (i : Nat)
    (hres : source chart start = some cd)
    (hodd : cd.date = mkDate 1976 7 3)
    (hgt : stop < cd.date)
    (hs : db.lookup (chart_name_to_table_name chart) (mkDate 1976 7 4) = some s)
    (hm : match_artist artist s = some (a, i)) :
    find_in_table artist db source start stop chart =
      (.found ⟨mkDate 1976 7 4, a, i⟩, db,
        [.sourceFetch chart start,
         .cacheLookup (chart_name_to_table_name chart) (mkDate 1976 7 4) true])
    ∧ mkDate 1976 7 4 ≠ mkDate 1976 7 3
    ∧ mkDate 1976 7 4 - 7 ≠ mkDate 1976 7 3 - 7 := by
  refine ⟨?_, by decide, by decide⟩
  simp only [find_in_table, hres]
  rw [loop_step (show cd.date > stop by omega), hodd, substOdd_odd,
    get_or_fetch_hit hs]
  simp only [hm]

/-- C9 witness: a scan resolving to the odd canonical week `1976-07-03` with
the roster cached under `1976-07-04` returns a `FoundInfo` dated
`1976-07-04`. -/
theorem C9_witness :
    find_in_table "drake" ⟨[(mkDate 1976 7 4, "drake")], []⟩
        (fun _ _ => some ⟨mkDate 1976 7 3, []⟩) (mkDate 1976 7 3) (mkDate 1976 1 3)
        "hot-100" =
      (.found ⟨mkDate 1976 7 4, "drake", 1⟩,
       ⟨[(mkDate 1976 7 4, "drake")], []⟩,
       [.sourceFetch "hot-100" (mkDate 1976 7 3),
        .cacheLookup "hot100" (mkDate 1976 7 4) true]) := by
  have h := C9_theorem "drake" "hot-100" (fun _ _ => some ⟨mkDate 1976 7 3, []⟩)
      ⟨[(mkDate 1976 7 4, "drake")], []⟩ (mkDate 1976 7 3) (mkDate 1976 1 3)
      ⟨mkDate 1976 7 3, []⟩ "drake" "drake" 1 rfl rfl (by decide) (by decide)
      (by decide)
  exact h.1
